import Mathlib

/-!
Batched log shipper (`internal/AWS/logger.go`).

A shallow embedding of `BatchLogger` (the channel, the `processLogs` worker,
`flushLogs`, `Log`, `Close`, `NewBatchLogger`) and of `CloudWatchLogger.SendLog`.

* The sink is the `LogClient` interface: an arbitrary state type `σ` and an
  arbitrary `SendLog` that may fail on any call.
* Fields named `calls`, `flushes` and `enqueued` are ghost traces added by the
  model: they record what the code did and are never read by it.
* Goroutines are modelled by interleaving: one iteration of the worker's
  `select` loop is one atomic step.
-/

namespace aws

/-- Go's `map[string]string`, kept as an association list. -/
abbrev Metadata := List (String × String)

/-- The `logEntry` struct. -/
structure logEntry where
  message : String
  level : String
  metadata : Metadata
deriving DecidableEq, Repr

/-- The `LogClient` interface: `SendLog(message, level, metadata) error`.
The client owns a state of type `σ`; the result `none` is Go's `nil` error. -/
structure LogClient (σ : Type) where
  SendLog : σ → String → String → Metadata → σ × Option String

/-- The sink as seen from the shipper: the client's own state, the trace of
`SendLog` calls made so far (ghost) and the lines written through
`log.Error()`. -/
structure Sink (σ : Type) where
  client : σ
  calls : List logEntry
  errors : List String

/-- One iteration of the `for _, entry := range logs` loop of `flushLogs`:
call `SendLog` with the entry's three fields and log the error, if any. -/
def sendOne {σ : Type} (c : LogClient σ) (w : Sink σ) (entry : logEntry) : Sink σ :=
  match c.SendLog w.client entry.message entry.level entry.metadata with
  | (st, none) =>
    { client := st
      calls := w.calls ++ [⟨entry.message, entry.level, entry.metadata⟩]
      errors := w.errors }
  | (st, some err) =>
    { client := st
      calls := w.calls ++ [⟨entry.message, entry.level, entry.metadata⟩]
      errors := w.errors ++ [err] }

/-- The method `flushLogs`: every entry of `logs` is submitted in order. It
has no result in the source; here it returns the sink it has acted on. -/
def flushLogs {σ : Type} (c : LogClient σ) (logs : List logEntry) (w : Sink σ) : Sink σ :=
  logs.foldl (sendOne c) w

/-- Reference for `flushLogs`: the client state reached by calling `SendLog`
once on each entry of `logs`, in order, starting from `st`, whatever each
call returns. -/
def callAll {σ : Type} (c : LogClient σ) (st : σ) (logs : List logEntry) : σ :=
  logs.foldl (fun st e => (c.SendLog st e.message e.level e.metadata).1) st

/-- Reference for `flushLogs`: the errors returned by those calls, in order. -/
def callErrors {σ : Type} (c : LogClient σ) : σ → List logEntry → List String
  | _, [] => []
  | st, e :: es =>
    match c.SendLog st e.message e.level e.metadata with
    | (st1, none) => callErrors c st1 es
    | (st1, some err) => err :: callErrors c st1 es

/-- The fields of the `BatchLogger` struct that are fixed at construction.
`chanCap` is the capacity `logChan` was made with; the channel's contents and
the `done` channel live in `State`. -/
structure BatchLogger (σ : Type) where
  client : LogClient σ
  batchSize : Int
  flushTimeout : Int
  chanCap : Nat

/-- A `time.Ticker` as `processLogs` uses it: ticks are due on the grid
`next, next + period, ...`; a tick that is due stays pending until received. -/
structure Ticker where
  period : Nat
  next : Nat
deriving DecidableEq, Repr

/-- Receiving from `ticker.C` at time `now`: ticks missed in the meantime are
dropped, the following tick is due at the first grid point after `now`. -/
def Ticker.fire (t : Ticker) (now : Nat) : Ticker :=
  { t with next := t.next + t.period * ((now - t.next) / t.period + 1) }

/-- The local state of the `processLogs` goroutine: its `buffer`, its
`ticker`, the sink it writes to, whether it has returned, the ghost trace of
the arguments of its `flushLogs` invocations, and whether it has panicked
(which ends the process). -/
structure Worker (σ : Type) where
  buffer : List logEntry
  ticker : Ticker
  sink : Sink σ
  flushes : List (List logEntry)
  exited : Bool
  panicked : Bool

/-- The `case entry := <-b.logChan` branch of the `select`. After the flush,
`make([]logEntry, 0, b.batchSize)` panics when the batch size is negative:
the flush has happened, the goroutine and its locals are gone, and the
worker is marked `panicked`. -/
def onEntry {σ : Type} (b : BatchLogger σ) (w : Worker σ) (entry : logEntry) : Worker σ :=
  let buffer := w.buffer ++ [entry]
  if (buffer.length : Int) ≥ b.batchSize then
    if b.batchSize < 0 then
      { w with
        buffer := []
        sink := flushLogs b.client buffer w.sink
        flushes := w.flushes ++ [buffer]
        panicked := true }
    else
      { w with
        buffer := []
        sink := flushLogs b.client buffer w.sink
        flushes := w.flushes ++ [buffer] }
  else
    { w with buffer := buffer }

/-- The `case <-ticker.C` branch of the `select`, taken at time `now`. As in
`onEntry`, the `make` after the flush panics on a negative batch size. -/
def onTick {σ : Type} (b : BatchLogger σ) (w : Worker σ) (now : Nat) : Worker σ :=
  let w := { w with ticker := w.ticker.fire now }
  if w.buffer.length > 0 then
    if b.batchSize < 0 then
      { w with
        buffer := []
        sink := flushLogs b.client w.buffer w.sink
        flushes := w.flushes ++ [w.buffer]
        panicked := true }
    else
      { w with
        buffer := []
        sink := flushLogs b.client w.buffer w.sink
        flushes := w.flushes ++ [w.buffer] }
  else
    w

/-- The `case <-b.done` branch of the `select`: flush what is buffered, then
`return`. -/
def onDone {σ : Type} (b : BatchLogger σ) (w : Worker σ) : Worker σ :=
  if w.buffer.length > 0 then
    { w with
      sink := flushLogs b.client w.buffer w.sink
      flushes := w.flushes ++ [w.buffer]
      exited := true }
  else
    { w with exited := true }

/-- What one `select` of the worker's loop picks. -/
inductive Select where
  | entry (e : logEntry)
  | tick (now : Nat)
  | done
deriving DecidableEq, Repr

/-- The worker at the top of the `for` loop of `processLogs`, started at time
`now`: `var buffer []logEntry` and `time.NewTicker(b.flushTimeout)`. -/
def Worker.start {σ : Type} (b : BatchLogger σ) (sink : Sink σ) (now : Nat) : Worker σ :=
  { buffer := []
    ticker := { period := b.flushTimeout.toNat, next := now + b.flushTimeout.toNat }
    sink := sink
    flushes := []
    exited := false
    panicked := false }

/-- The `for { select { ... } }` loop of `processLogs`, run on the sequence of
choices its `select` makes. The `done` branch returns, whatever follows. -/
def processLogs {σ : Type} (b : BatchLogger σ) : Worker σ → List Select → Worker σ
  | w, [] => w
  | w, Select.entry e :: rest => processLogs b (onEntry b w e) rest
  | w, Select.tick now :: rest => processLogs b (onTick b w now) rest
  | w, Select.done :: _ => onDone b w

/-! ## The logger as a whole: channel, producers, worker -/

/-- The mutable part of a running `BatchLogger`: the contents of `logChan`
(head is the oldest entry), whether `done` has been closed, the worker, the
clock, and the ghost trace of the entries whose `Log` call has completed. -/
structure State (σ : Type) where
  logChan : List logEntry
  doneClosed : Bool
  worker : Worker σ
  now : Nat
  enqueued : List logEntry

/-- The method `Log`: build the `logEntry` and send it on `logChan`. The
result `none` means the send cannot complete in this state (the caller
blocks). A channel with room takes the entry at its tail; a channel of
capacity zero is unbuffered, and the send completes only by handing the entry
to the worker's `case entry := <-b.logChan`. -/
def Log {σ : Type} (b : BatchLogger σ) (s : State σ)
    (message : String) (level : String) (metadata : Metadata) : Option (State σ) :=
  let entry : logEntry := { message := message, level := level, metadata := metadata }
  if s.logChan.length < b.chanCap then
    some { s with logChan := s.logChan ++ [entry], enqueued := s.enqueued ++ [entry] }
  else if b.chanCap = 0 ∧ s.worker.exited = false then
    some { s with worker := onEntry b s.worker entry, enqueued := s.enqueued ++ [entry] }
  else
    none

/-- The method `Close`: `close(b.done)`. Closing a closed channel panics,
which is the result `none`. -/
def Close {σ : Type} (s : State σ) : Option (State σ) :=
  if s.doneClosed then none else some { s with doneClosed := true }

/-- What can happen next in a running logger. -/
inductive Event where
  | log (message : String) (level : String) (metadata : Metadata)
  | close
  | recv
  | tick
  | done
  | sleep (d : Nat)
deriving DecidableEq, Repr

/-- One step of a logger whose process is alive; `none` when the event cannot
happen in `s`. `recv`, `tick` and `done` are the three branches of the
worker's `select`, each enabled exactly when its channel is ready and the
worker has not returned. -/
def stepLive {σ : Type} (b : BatchLogger σ) (s : State σ) : Event → Option (State σ)
  | Event.log message level metadata => Log b s message level metadata
  | Event.close => Close s
  | Event.recv =>
    if s.worker.exited then none
    else match s.logChan with
      | [] => none
      | entry :: rest => some { s with logChan := rest, worker := onEntry b s.worker entry }
  | Event.tick =>
    if s.worker.exited then none
    else if s.worker.ticker.next ≤ s.now then
      some { s with worker := onTick b s.worker s.now }
    else none
  | Event.done =>
    if s.worker.exited then none
    else if s.doneClosed then some { s with worker := onDone b s.worker }
    else none
  | Event.sleep d => some { s with now := s.now + d }

/-- One step of the logger: nothing happens any more once the worker has
panicked, since that ends the process. -/
def step {σ : Type} (b : BatchLogger σ) (s : State σ) (ev : Event) : Option (State σ) :=
  if s.worker.panicked then none else stepLive b s ev

/-- A sequence of steps; `none` as soon as one of them cannot happen. -/
def run {σ : Type} (b : BatchLogger σ) : State σ → List Event → Option (State σ)
  | s, [] => some s
  | s, ev :: evs => (step b s ev).bind (fun s' => run b s' evs)

/-- Go's `int` arithmetic on a 64-bit platform: the result wraps around. -/
def wrapInt64 (x : Int) : Int := (x + 2 ^ 63) % 2 ^ 64 - 2 ^ 63

/-- The state right after construction: empty channel, `done` open, the
worker at the top of its loop. -/
def State.init {σ : Type} (b : BatchLogger σ) (st : σ) (now : Nat) : State σ :=
  { logChan := []
    doneClosed := false
    worker := Worker.start b { client := st, calls := [], errors := [] } now
    now := now
    enqueued := [] }

/-- The constructor `NewBatchLogger`, called at time `now` with a client in
state `st`. `make(chan logEntry, batchSize*2)` panics on a negative size, and
the worker's `time.NewTicker` panics on a non-positive interval; both are the
result `none`. The allocation limit of `make` is not modelled. -/
def NewBatchLogger {σ : Type} (client : LogClient σ) (st : σ) (batchSize : Int)
    (flushInterval : Int) (now : Nat) : Option (BatchLogger σ × State σ) :=
  let size := wrapInt64 (batchSize * 2)
  if size < 0 then none
  else if flushInterval ≤ 0 then none
  else
    let logger : BatchLogger σ :=
      { client := client
        batchSize := batchSize
        flushTimeout := flushInterval
        chanCap := size.toNat }
    some (logger, State.init logger st now)

/-! ## `CloudWatchLogger.SendLog` -/

/-- An error returned by the CloudWatch Logs service. -/
inductive AwsError where
  | InvalidSequenceTokenException (msg : String)
  | other (msg : String)
deriving DecidableEq, Repr

/-- The method `Error()` of an error value. -/
def AwsError.Error : AwsError → String
  | AwsError.InvalidSequenceTokenException msg => msg
  | AwsError.other msg => msg

/-- The helper `errors.Wrap(err, message)`. -/
def Wrap (err : String) (message : String) : String := message ++ ": " ++ err

structure InputLogEvent where
  Message : String
  Timestamp : Int
deriving DecidableEq, Repr

structure PutLogEventsInput where
  LogGroupName : String
  LogStreamName : String
  LogEvents : List InputLogEvent
  SequenceToken : Option String
deriving DecidableEq, Repr

structure PutLogEventsOutput where
  NextSequenceToken : Option String
deriving DecidableEq, Repr

structure DescribeLogStreamsInput where
  LogGroupName : String
  LogStreamNamePrefix : String
deriving DecidableEq, Repr

/-- A described log stream; both fields are pointers in the SDK. -/
structure LogStream where
  LogStreamName : Option String
  UploadSequenceToken : Option String
deriving DecidableEq, Repr

structure DescribeLogStreamsOutput where
  LogStreams : List LogStream
deriving DecidableEq, Repr

/-- The two operations of the service client `svc` that `SendLog` uses, over
a service state `τ`. `PutLogEvents` returns its response pointer (possibly
nil) and its error (possibly nil). -/
structure CloudWatchLogs (τ : Type) where
  PutLogEvents : τ → PutLogEventsInput → τ × Option PutLogEventsOutput × Option AwsError
  DescribeLogStreams : τ → DescribeLogStreamsInput → τ × Except String DescribeLogStreamsOutput

/-- What `SendLog` reads from outside: `json.Marshal` and the clock. -/
structure Env where
  marshal : List (String × String) → Except String String
  timeRFC3339 : String
  unixNano : Int

/-- The fields of `CloudWatchLogger` other than `svc`. -/
structure CloudWatchLogger where
  logGroupName : String
  logStreamName : String
  sequenceToken : Option String
deriving DecidableEq, Repr

/-- How a call of `SendLog` ends: the returned error, or a panic. -/
inductive Outcome where
  | nil
  | error (msg : String)
  | panic
deriving DecidableEq, Repr

/-- Everything a call of `SendLog` leaves behind: the service state, the
logger (its `sequenceToken` may have changed), the outcome, and the ghost
trace of its `PutLogEvents` calls (`true` for a call that returned no error). -/
structure SendResult (τ : Type) where
  svc : τ
  logger : CloudWatchLogger
  outcome : Outcome
  puts : List Bool

/-- Assignment `m[k] = v` on a map kept as an association list. -/
def mapSet (m : List (String × String)) (k : String) (v : String) : List (String × String) :=
  (m.filter (fun kv => kv.1 ≠ k)) ++ [(k, v)]

/-- The loop `for _, stream := range descOutput.LogStreams`: the token of the
first stream named `name` replaces `tok`; `none` is the nil dereference of
`*stream.LogStreamName`. -/
def findStream (name : String) (tok : Option String) : List LogStream → Option (Option String)
  | [] => some tok
  | stream :: rest =>
    match stream.LogStreamName with
    | none => none
    | some n => if n = name then some stream.UploadSequenceToken else findStream name tok rest

/-- The statements of `SendLog` after its two service calls: the sequence
token update and `return nil`. -/
def finish {τ : Type} (t : τ) (c : CloudWatchLogger) (resp : Option PutLogEventsOutput)
    (puts : List Bool) : SendResult τ :=
  match resp with
  | some r =>
    match r.NextSequenceToken with
    | some tok => ⟨t, { c with sequenceToken := some tok }, Outcome.nil, puts⟩
    | none => ⟨t, c, Outcome.nil, puts⟩
  | none => ⟨t, c, Outcome.nil, puts⟩

/-- The method `CloudWatchLogger.SendLog`. -/
def CloudWatchLogger.SendLog {τ : Type} (svc : CloudWatchLogs τ) (env : Env)
    (c : CloudWatchLogger) (t : τ) (message : String) (level : String)
    (metadata : Metadata) : SendResult τ :=
  let logEvent := metadata.foldl (fun m kv => mapSet m kv.1 kv.2)
    [("message", message), ("level", level), ("timestamp", env.timeRFC3339)]
  match env.marshal logEvent with
  | Except.error err => ⟨t, c, Outcome.error (Wrap err "failed to marshal log event"), []⟩
  | Except.ok logData =>
    let input : PutLogEventsInput :=
      { LogGroupName := c.logGroupName
        LogStreamName := c.logStreamName
        LogEvents := [{ Message := logData, Timestamp := Int.tdiv env.unixNano 1000000 }]
        SequenceToken := c.sequenceToken }
    match svc.PutLogEvents t input with
    | (t1, resp, none) => finish t1 c resp [true]
    | (t1, resp, some (AwsError.InvalidSequenceTokenException _)) =>
      let descInput : DescribeLogStreamsInput :=
        { LogGroupName := c.logGroupName, LogStreamNamePrefix := c.logStreamName }
      match svc.DescribeLogStreams t1 descInput with
      | (t2, Except.error descErr) =>
        ⟨t2, c, Outcome.error (Wrap descErr "failed to describe log streams"), [false]⟩
      | (t2, Except.ok descOutput) =>
        match findStream c.logStreamName c.sequenceToken descOutput.LogStreams with
        | none => ⟨t2, c, Outcome.panic, [false]⟩
        | some tok =>
          let c1 := { c with sequenceToken := tok }
          match tok with
          | some _ =>
            match svc.PutLogEvents t2 { input with SequenceToken := tok } with
            | (t3, resp2, none) => finish t3 c1 resp2 [false, true]
            | (t3, _, some err) =>
              ⟨t3, c1, Outcome.error (Wrap err.Error "failed to put log events after token refresh"),
                [false, false]⟩
          | none => finish t2 c1 resp [false]
    | (t1, _, some (AwsError.other msg)) =>
      ⟨t1, c, Outcome.error (Wrap msg "failed to put log events"), [false]⟩

/-! ## Concrete clients and entries used in the examples -/

/-- A sink that accepts every entry. -/
def okClient : LogClient Unit :=
  { SendLog := fun st _ _ _ => (st, none) }

/-- A sink that counts its calls and fails on every second one, starting
with the first. -/
def flakyClient : LogClient Nat :=
  { SendLog := fun n _ _ _ => (n + 1, if n % 2 = 0 then some "unavailable" else none) }

/-- A sink that records the arguments of every call and rejects the entries
of level `warn`. -/
def recordingClient : LogClient (List logEntry) :=
  { SendLog := fun st message level metadata =>
      (st ++ [{ message := message, level := level, metadata := metadata }],
        if level = "warn" then some ("rejected " ++ message) else none) }

def entryA : logEntry := { message := "A", level := "info", metadata := [] }
def entryB : logEntry := { message := "B", level := "warn", metadata := [("k", "v")] }
def entryC : logEntry := { message := "C", level := "info", metadata := [] }
def entryD : logEntry := { message := "D", level := "error", metadata := [] }

/-- A service that rejects every `PutLogEvents` with
`InvalidSequenceTokenException` and knows no log stream. -/
def staleSvc : CloudWatchLogs Unit :=
  { PutLogEvents := fun t _ => (t, none, some (AwsError.InvalidSequenceTokenException "invalid token"))
    DescribeLogStreams := fun t _ => (t, Except.ok { LogStreams := [] }) }

/-- An environment whose `json.Marshal` succeeds. -/
def plainEnv : Env :=
  { marshal := fun m => Except.ok (String.join (m.map (fun kv => kv.1 ++ "=" ++ kv.2 ++ ";")))
    timeRFC3339 := "2024-01-01T00:00:00Z"
    unixNano := 1704067200000000000 }

/-- The entries of the `Log` calls among `evs`, in order. -/
def logged : List Event → List logEntry
  | [] => []
  | Event.log message level metadata :: evs =>
    { message := message, level := level, metadata := metadata } :: logged evs
  | _ :: evs => logged evs

/-- A logger with batch size 2 in front of the flaky sink. -/
def demoLogger : BatchLogger Nat :=
  { client := flakyClient, batchSize := 2, flushTimeout := 10, chanCap := 4 }

/-- Three entries are logged; two are received and flushed by size, the third
is received and flushed by the timer. -/
def demoEvents : List Event :=
  [Event.log "A" "info" [], Event.recv, Event.log "B" "warn" [("k", "v")],
    Event.log "C" "info" [], Event.recv, Event.recv, Event.sleep 10, Event.tick]

/-- The state `demoEvents` leads to from the start of `demoLogger`. -/
def demoFinal : State Nat :=
  { logChan := []
    doneClosed := false
    worker :=
      { buffer := []
        ticker := { period := 10, next := 20 }
        sink :=
          { client := 3
            calls := [entryA, entryB, entryC]
            errors := ["unavailable", "unavailable"] }
        flushes := [[entryA, entryB], [entryC]]
        exited := false
        panicked := false }
    now := 10
    enqueued := [entryA, entryB, entryC] }

/-- The state after `demoEvents` followed by `Log` of D, its receipt, and
`Close()`: D is buffered and `done` is closed. -/
def demoClosing : State Nat :=
  { demoFinal with
    doneClosed := true
    worker := { demoFinal.worker with buffer := [entryD] }
    enqueued := [entryA, entryB, entryC, entryD] }

/-- The state after the worker of `demoClosing` has taken the close signal,
one more `Log` of A has completed and 5 time units have passed. -/
def demoAfter : State Nat :=
  { demoClosing with
    logChan := [entryA]
    worker := onDone demoLogger demoClosing.worker
    now := 15
    enqueued := [entryA, entryB, entryC, entryD, entryA] }

/-- The entries the worker's `select` picks up, in order, until it takes
the close signal. -/
def received : List Select → List logEntry
  | [] => []
  | Select.entry e :: rest => e :: received rest
  | Select.tick _ :: rest => received rest
  | Select.done :: _ => []

/-- A logger with batch size 0: `logChan` is unbuffered. -/
def zeroLogger : BatchLogger Unit :=
  { client := okClient, batchSize := 0, flushTimeout := 10, chanCap := 0 }

/-- Two `Log` calls handed straight to the worker, then a timer fire. -/
def zeroEvents : List Event :=
  [Event.log "A" "info" [], Event.log "B" "warn" [("k", "v")], Event.sleep 10, Event.tick]

/-- The state `zeroEvents` leads to from the start of `zeroLogger`. -/
def zeroFinal : State Unit :=
  { logChan := []
    doneClosed := false
    worker :=
      { buffer := []
        ticker := { period := 10, next := 20 }
        sink := { client := (), calls := [entryA, entryB], errors := [] }
        flushes := [[entryA], [entryB]]
        exited := false
        panicked := false }
    now := 10
    enqueued := [entryA, entryB] }

/-! ## Lemmas on `flushLogs` -/

theorem sendOne_calls {σ : Type} (c : LogClient σ) (w : Sink σ) (entry : logEntry) :
    (sendOne c w entry).calls = w.calls ++ [entry] := by
  unfold sendOne
  split <;> rfl

theorem flushLogs_calls {σ : Type} (c : LogClient σ) (logs : List logEntry) (w : Sink σ) :
    (flushLogs c logs w).calls = w.calls ++ logs := by
  unfold flushLogs
  induction logs generalizing w with
  | nil => simp
  | cons e es ih => simp [List.foldl_cons, ih, sendOne_calls]

theorem step_live {σ : Type} (b : BatchLogger σ) (s s' : State σ) (ev : Event)
    (h : step b s ev = some s') : stepLive b s ev = some s' ∧ s.worker.panicked = false := by
  unfold step at h
  split at h
  · cases h
  · rename_i hp
    exact ⟨h, by simpa using hp⟩

theorem sendOne_errors {σ : Type} (c : LogClient σ) (w : Sink σ) (entry : logEntry) :
    w.errors.length ≤ (sendOne c w entry).errors.length ∧
      (sendOne c w entry).errors.length ≤ w.errors.length + 1 := by
  unfold sendOne
  split <;> simp

theorem flushLogs_errors {σ : Type} (c : LogClient σ) (logs : List logEntry) (w : Sink σ) :
    w.errors.length ≤ (flushLogs c logs w).errors.length ∧
      (flushLogs c logs w).errors.length ≤ w.errors.length + logs.length := by
  unfold flushLogs
  induction logs generalizing w with
  | nil => simp
  | cons e es ih =>
    have h1 := sendOne_errors c w e
    have h2 := ih (sendOne c w e)
    simp only [List.foldl_cons, List.length_cons]
    omega

theorem flushLogs_client {σ : Type} (c : LogClient σ) (logs : List logEntry) (w : Sink σ) :
    (flushLogs c logs w).client = callAll c w.client logs := by
  unfold flushLogs callAll
  induction logs generalizing w with
  | nil => rfl
  | cons e es ih =>
    simp only [List.foldl_cons]
    rw [ih]
    congr 1
    unfold sendOne
    split <;> simp_all

theorem flushLogs_errors_eq {σ : Type} (c : LogClient σ) (logs : List logEntry) (w : Sink σ) :
    (flushLogs c logs w).errors = w.errors ++ callErrors c w.client logs := by
  unfold flushLogs
  induction logs generalizing w with
  | nil => simp [callErrors]
  | cons e es ih =>
    simp only [List.foldl_cons]
    rw [ih]
    unfold sendOne
    split
    · rename_i st h
      simp [callErrors, h]
    · rename_i st err h
      simp [callErrors, h]

theorem flushLogs_append {σ : Type} (c : LogClient σ) (pre post : List logEntry) (e : logEntry)
    (w : Sink σ) :
    flushLogs c (pre ++ e :: post) w = flushLogs c post (sendOne c (flushLogs c pre w) e) := by
  simp [flushLogs, List.foldl_append]

theorem sendOne_client {σ : Type} (c : LogClient σ) (w : Sink σ) (e : logEntry) :
    (sendOne c w e).client = (c.SendLog w.client e.message e.level e.metadata).1 := by
  unfold sendOne
  split <;> simp_all

theorem onTick_sink {σ : Type} (b : BatchLogger σ) (w : Worker σ) (now : Nat) :
    (onTick b w now).sink = flushLogs b.client w.buffer w.sink := by
  unfold onTick
  dsimp only
  split_ifs
  · rfl
  · rfl
  · rename_i hlen
    have hnil : w.buffer = [] := by
      apply List.eq_nil_of_length_eq_zero
      omega
    rw [hnil]; rfl

theorem onTick_flushes_of_cons {σ : Type} (b : BatchLogger σ) (w : Worker σ) (now : Nat)
    (x : logEntry) (xs : List logEntry) (hb : w.buffer = x :: xs) :
    (onTick b w now).flushes = w.flushes ++ [w.buffer] := by
  unfold onTick
  dsimp only
  rw [hb]
  split_ifs <;> simp_all

theorem onEntry_sink {σ : Type} (b : BatchLogger σ) (w : Worker σ) (e : logEntry)
    (h : (((w.buffer ++ [e]).length : Nat) : Int) ≥ b.batchSize) :
    (onEntry b w e).sink = flushLogs b.client (w.buffer ++ [e]) w.sink ∧
      (onEntry b w e).flushes = w.flushes ++ [w.buffer ++ [e]] ∧
      (onEntry b w e).buffer = [] ∧
      (onEntry b w e).panicked = (w.panicked || decide (b.batchSize < 0)) := by
  unfold onEntry
  dsimp only
  rw [if_pos h]
  split_ifs with hneg
  · simp [hneg]
  · simp [hneg]

theorem processLogs_entries {σ : Type} (b : BatchLogger σ) (es : List logEntry) (w : Worker σ) :
    processLogs b w (es.map Select.entry) = es.foldl (onEntry b) w := by
  induction es generalizing w with
  | nil => rfl
  | cons e es ih => simp [processLogs, ih]

/-- The `i`-th group of `bs` consecutive entries of `es`. -/
theorem chunk_snoc (bs i q : Nat) (es : List logEntry) (e : logEntry)
    (hi : i < q) (hq : q * bs ≤ es.length) :
    ((es ++ [e]).drop (i * bs)).take bs = (es.drop (i * bs)).take bs := by
  have h1 : (i + 1) * bs ≤ q * bs := Nat.mul_le_mul_right bs hi
  have h2 : i * bs + bs ≤ es.length := by
    have : (i + 1) * bs = i * bs + bs := Nat.succ_mul i bs
    omega
  rw [List.drop_append_of_le_length (by omega)]
  rw [List.take_append_of_le_length (by simp; omega)]

/-- The loop invariant of the worker under a run of entry receipts only. -/
theorem entries_invariant {σ : Type} (b : BatchLogger σ) (bs : Nat) (hbs : b.batchSize = (bs : Int))
    (hpos : 1 ≤ bs) (w : Worker σ) (hw : w.buffer = []) (es : List logEntry) :
    ∃ q : Nat, q * bs ≤ es.length ∧ es.length < q * bs + bs ∧
      (es.foldl (onEntry b) w).flushes
        = w.flushes ++ (List.range q).map (fun i => (es.drop (i * bs)).take bs) ∧
      (es.foldl (onEntry b) w).buffer = es.drop (q * bs) ∧
      (es.foldl (onEntry b) w).sink.calls = w.sink.calls ++ es.take (q * bs) ∧
      (es.foldl (onEntry b) w).ticker = w.ticker ∧
      (es.foldl (onEntry b) w).exited = w.exited := by
  induction es using List.reverseRecOn with
  | nil =>
    refine ⟨0, by simp, by simpa using hpos, by simp, by simpa using hw, by simp, rfl, rfl⟩
  | append_singleton es e ih =>
    obtain ⟨q, hlo, hhi, hfl, hbuf, hcalls, htick, hex⟩ := ih
    rw [List.foldl_append, List.foldl_cons, List.foldl_nil]
    generalize es.foldl (onEntry b) w = W at hfl hbuf hcalls htick hex
    have hlen : (W.buffer ++ [e]).length = es.length - q * bs + 1 := by
      rw [hbuf]; simp
    have hsign : ¬ b.batchSize < 0 := by rw [hbs]; omega
    by_cases hfull : ((W.buffer ++ [e]).length : Int) ≥ b.batchSize
    · have hfull' : bs ≤ es.length - q * bs + 1 := by
        rw [hbs, hlen] at hfull; exact_mod_cast hfull
      have hn : es.length + 1 = (q + 1) * bs := by
        rw [Nat.succ_mul]; omega
      have hdrop : es.drop (q * bs) ++ [e] = (es ++ [e]).drop (q * bs) := by
        rw [List.drop_append_of_le_length hlo]
      have hwhole : ((es ++ [e]).drop (q * bs)).take bs = (es ++ [e]).drop (q * bs) := by
        apply List.take_of_length_le
        simp; omega
      refine ⟨q + 1, by simp; omega, by simp; omega, ?_, ?_, ?_, ?_, ?_⟩
      · simp only [onEntry, if_pos hfull, if_neg hsign]
        rw [hfl, List.range_succ, List.map_append, List.map_singleton, hbuf, hdrop, hwhole,
          List.append_assoc]
        congr 2
        apply List.map_congr_left
        intro i hi
        exact (chunk_snoc bs i q es e (List.mem_range.mp hi) hlo).symm
      · simp only [onEntry, if_pos hfull, if_neg hsign]
        symm
        apply List.drop_of_length_le
        simp; omega
      · simp only [onEntry, if_pos hfull, if_neg hsign]
        rw [flushLogs_calls, hcalls, hbuf, List.append_assoc, ← List.append_assoc (es.take _),
          List.take_append_drop]
        congr 1
        symm
        apply List.take_of_length_le
        simp; omega
      · simp only [onEntry, if_pos hfull, if_neg hsign]; exact htick
      · simp only [onEntry, if_pos hfull, if_neg hsign]; exact hex
    · have hfull' : es.length - q * bs + 1 < bs := by
        rw [hbs, hlen] at hfull
        have := not_le.mp hfull
        exact_mod_cast this
      refine ⟨q, by simp; omega, by simp; omega, ?_, ?_, ?_, ?_, ?_⟩
      · simp only [onEntry, if_neg hfull]
        rw [hfl]
        congr 1
        apply List.map_congr_left
        intro i hi
        exact (chunk_snoc bs i q es e (List.mem_range.mp hi) hlo).symm
      · simp only [onEntry, if_neg hfull]
        rw [hbuf, List.drop_append_of_le_length hlo]
      · simp only [onEntry, if_neg hfull]
        rw [hcalls, List.take_append_of_le_length hlo]
      · simp only [onEntry, if_neg hfull]; exact htick
      · simp only [onEntry, if_neg hfull]; exact hex

theorem onEntry_delivered {σ : Type} (b : BatchLogger σ) (w : Worker σ) (e : logEntry) :
    (onEntry b w e).sink.calls ++ (onEntry b w e).buffer = w.sink.calls ++ w.buffer ++ [e] := by
  unfold onEntry
  dsimp only
  split_ifs <;> simp [flushLogs_calls]

theorem onEntry_exited {σ : Type} (b : BatchLogger σ) (w : Worker σ) (e : logEntry) :
    (onEntry b w e).exited = w.exited := by
  unfold onEntry
  dsimp only
  split_ifs <;> rfl

theorem onEntry_ticker {σ : Type} (b : BatchLogger σ) (w : Worker σ) (e : logEntry) :
    (onEntry b w e).ticker = w.ticker := by
  unfold onEntry
  dsimp only
  split_ifs <;> rfl

theorem onTick_delivered {σ : Type} (b : BatchLogger σ) (w : Worker σ) (now : Nat) :
    (onTick b w now).sink.calls ++ (onTick b w now).buffer = w.sink.calls ++ w.buffer := by
  unfold onTick
  dsimp only
  split_ifs <;> simp [flushLogs_calls]

theorem onTick_exited {σ : Type} (b : BatchLogger σ) (w : Worker σ) (now : Nat) :
    (onTick b w now).exited = w.exited := by
  unfold onTick
  dsimp only
  split_ifs <;> rfl

/-- The invariant of the running logger: what was handed to the sink, then
the buffer, then the channel, is what was enqueued; the channel respects its
capacity; the worker has not returned. -/
theorem step_invariant {σ : Type} (b : BatchLogger σ) (s s' : State σ) (ev : Event)
    (hev : ev ≠ Event.done) (hstep : step b s ev = some s')
    (hinv : s.worker.sink.calls ++ s.worker.buffer ++ s.logChan = s.enqueued)
    (hcap : s.logChan.length ≤ b.chanCap) (hrun : s.worker.exited = false) :
    s'.worker.sink.calls ++ s'.worker.buffer ++ s'.logChan = s'.enqueued ∧
      s'.logChan.length ≤ b.chanCap ∧ s'.worker.exited = false := by
  replace hstep := (step_live b s s' ev hstep).1
  cases ev with
  | log m l md =>
    simp only [stepLive, Log] at hstep
    split at hstep
    · rename_i hroom
      cases hstep
      refine ⟨?_, ?_, hrun⟩
      · simp only [← hinv, List.append_assoc]
      · simp only [List.length_append, List.length_singleton]; omega
    · split at hstep
      · rename_i hzero
        cases hstep
        have hnil : s.logChan = [] := by
          apply List.eq_nil_of_length_eq_zero
          omega
        refine ⟨?_, hcap, ?_⟩
        · simp only [onEntry_delivered, ← hinv, hnil, List.append_nil]
        · simp only [onEntry_exited]; exact hrun
      · cases hstep
  | close =>
    simp only [stepLive, Close] at hstep
    split at hstep
    · cases hstep
    · cases hstep; exact ⟨hinv, hcap, hrun⟩
  | recv =>
    simp only [stepLive, hrun, Bool.false_eq_true, if_false] at hstep
    split at hstep
    · cases hstep
    · rename_i entry rest hchan
      cases hstep
      rw [hchan] at hinv hcap
      refine ⟨?_, ?_, ?_⟩
      · simp only [onEntry_delivered, ← hinv, List.append_assoc, List.singleton_append]
      · simp only [List.length_cons] at hcap; simp only; omega
      · simp only [onEntry_exited]; exact hrun
  | tick =>
    simp only [stepLive, hrun, Bool.false_eq_true, if_false] at hstep
    split at hstep
    · cases hstep
      refine ⟨?_, hcap, ?_⟩
      · simp only [onTick_delivered]; exact hinv
      · simp only [onTick_exited]; exact hrun
    · cases hstep
  | done => exact absurd rfl hev
  | sleep d =>
    simp only [stepLive, Option.some.injEq] at hstep
    cases hstep
    exact ⟨hinv, hcap, hrun⟩

theorem run_invariant {σ : Type} (b : BatchLogger σ) (evs : List Event) (s s' : State σ)
    (hev : Event.done ∉ evs) (hrun' : run b s evs = some s')
    (hinv : s.worker.sink.calls ++ s.worker.buffer ++ s.logChan = s.enqueued)
    (hcap : s.logChan.length ≤ b.chanCap) (hrun : s.worker.exited = false) :
    s'.worker.sink.calls ++ s'.worker.buffer ++ s'.logChan = s'.enqueued ∧
      s'.logChan.length ≤ b.chanCap ∧ s'.worker.exited = false := by
  induction evs generalizing s with
  | nil =>
    simp only [run, Option.some.injEq] at hrun'
    cases hrun'
    exact ⟨hinv, hcap, hrun⟩
  | cons ev evs ih =>
    simp only [run] at hrun'
    cases hs : step b s ev with
    | none => rw [hs] at hrun'; cases hrun'
    | some s1 =>
      rw [hs] at hrun'
      have hne : ev ≠ Event.done := by
        intro h; exact hev (by rw [h]; exact List.mem_cons_self _ _)
      obtain ⟨h1, h2, h3⟩ := step_invariant b s s1 ev hne hs hinv hcap hrun
      exact ih s1 (fun h => hev (List.mem_cons_of_mem _ h)) hrun' h1 h2 h3

theorem foldl_onEntry_below {σ : Type} (b : BatchLogger σ) (es : List logEntry) (w : Worker σ)
    (h : ((w.buffer.length + es.length : Nat) : Int) < b.batchSize) :
    es.foldl (onEntry b) w = { w with buffer := w.buffer ++ es } := by
  induction es generalizing w with
  | nil => simp
  | cons e es ih =>
    have hlt : ¬ (((w.buffer ++ [e]).length : Nat) : Int) ≥ b.batchSize := by
      simp only [List.length_append, List.length_cons, List.length_nil] at h ⊢
      push_cast at h ⊢
      omega
    have hstep : onEntry b w e = { w with buffer := w.buffer ++ [e] } := by
      simp only [onEntry, if_neg hlt]
    rw [List.foldl_cons, hstep, ih]
    · simp
    · simp only [List.length_append, List.length_cons, List.length_nil] at h ⊢
      push_cast at h ⊢
      omega

theorem step_exited {σ : Type} (b : BatchLogger σ) (s s' : State σ) (ev : Event)
    (hex : s.worker.exited = true) (hstep : step b s ev = some s') :
    s'.worker = s.worker := by
  replace hstep := (step_live b s s' ev hstep).1
  cases ev with
  | log m l md =>
    simp only [stepLive, Log, hex, Bool.true_eq_false, and_false, if_false] at hstep
    split at hstep
    · cases hstep; rfl
    · cases hstep
  | close =>
    simp only [stepLive, Close] at hstep
    split at hstep
    · cases hstep
    · cases hstep; rfl
  | recv => simp [stepLive, hex] at hstep
  | tick => simp [stepLive, hex] at hstep
  | done => simp [stepLive, hex] at hstep
  | sleep d =>
    simp only [stepLive, Option.some.injEq] at hstep
    cases hstep; rfl

theorem run_exited {σ : Type} (b : BatchLogger σ) (evs : List Event) (s s' : State σ)
    (hex : s.worker.exited = true) (hrun : run b s evs = some s') :
    s'.worker = s.worker := by
  induction evs generalizing s with
  | nil =>
    simp only [run, Option.some.injEq] at hrun
    cases hrun; rfl
  | cons ev evs ih =>
    simp only [run] at hrun
    cases hs : step b s ev with
    | none => rw [hs] at hrun; cases hrun
    | some s1 =>
      rw [hs] at hrun
      have h1 := step_exited b s s1 ev hex hs
      rw [ih s1 (by rw [h1]; exact hex) hrun, h1]

theorem step_enqueued {σ : Type} (b : BatchLogger σ) (s s' : State σ) (ev : Event)
    (hstep : step b s ev = some s') : s'.enqueued = s.enqueued ++ logged [ev] := by
  replace hstep := (step_live b s s' ev hstep).1
  cases ev with
  | log m l md =>
    simp only [stepLive, Log] at hstep
    split at hstep
    · cases hstep; rfl
    · split at hstep
      · cases hstep; rfl
      · cases hstep
  | close =>
    simp only [stepLive, Close] at hstep
    split at hstep
    · cases hstep
    · cases hstep; simp [logged]
  | recv =>
    simp only [stepLive] at hstep
    split at hstep
    · cases hstep
    · split at hstep
      · cases hstep
      · cases hstep; simp [logged]
  | tick =>
    simp only [stepLive] at hstep
    split at hstep
    · cases hstep
    · split at hstep
      · cases hstep; simp [logged]
      · cases hstep
  | done =>
    simp only [stepLive] at hstep
    split at hstep
    · cases hstep
    · split at hstep
      · cases hstep; simp [logged]
      · cases hstep
  | sleep d =>
    simp only [stepLive, Option.some.injEq] at hstep
    cases hstep; simp [logged]

theorem logged_cons (ev : Event) (evs : List Event) :
    logged (ev :: evs) = logged [ev] ++ logged evs := by
  cases ev <;> simp [logged]

theorem run_enqueued {σ : Type} (b : BatchLogger σ) (evs : List Event) (s s' : State σ)
    (hrun : run b s evs = some s') : s'.enqueued = s.enqueued ++ logged evs := by
  induction evs generalizing s with
  | nil =>
    simp only [run, Option.some.injEq] at hrun
    cases hrun; simp [logged]
  | cons ev evs ih =>
    simp only [run] at hrun
    cases hs : step b s ev with
    | none => rw [hs] at hrun; cases hrun
    | some s1 =>
      rw [hs] at hrun
      rw [ih s1 hrun, step_enqueued b s s1 ev hs, logged_cons ev evs, List.append_assoc]

/-- No step puts more entries into `logChan` than its capacity allows. -/
theorem step_capacity {σ : Type} (b : BatchLogger σ) (s s' : State σ) (ev : Event)
    (hcap : s.logChan.length ≤ b.chanCap) (hstep : step b s ev = some s') :
    s'.logChan.length ≤ b.chanCap := by
  replace hstep := (step_live b s s' ev hstep).1
  cases ev with
  | log m l md =>
    simp only [stepLive, Log] at hstep
    split at hstep
    · cases hstep
      simp only [List.length_append, List.length_cons, List.length_nil]; omega
    · split at hstep
      · cases hstep; exact hcap
      · cases hstep
  | close =>
    simp only [stepLive, Close] at hstep
    split at hstep
    · cases hstep
    · cases hstep; exact hcap
  | recv =>
    simp only [stepLive] at hstep
    split at hstep
    · cases hstep
    · split at hstep
      · cases hstep
      · rename_i entry rest hchan
        cases hstep
        rw [hchan] at hcap
        simp only [List.length_cons] at hcap
        simp only; omega
  | tick =>
    simp only [stepLive] at hstep
    split at hstep
    · cases hstep
    · split at hstep
      · cases hstep; exact hcap
      · cases hstep
  | done =>
    simp only [stepLive] at hstep
    split at hstep
    · cases hstep
    · split at hstep
      · cases hstep; exact hcap
      · cases hstep
  | sleep d =>
    simp only [stepLive, Option.some.injEq] at hstep
    cases hstep; exact hcap

theorem run_capacity {σ : Type} (b : BatchLogger σ) (evs : List Event) (s s' : State σ)
    (hcap : s.logChan.length ≤ b.chanCap) (hrun : run b s evs = some s') :
    s'.logChan.length ≤ b.chanCap := by
  induction evs generalizing s with
  | nil =>
    simp only [run, Option.some.injEq] at hrun
    cases hrun; exact hcap
  | cons ev evs ih =>
    simp only [run] at hrun
    cases hs : step b s ev with
    | none => rw [hs] at hrun; cases hrun
    | some s1 =>
      rw [hs] at hrun
      exact ih s1 (step_capacity b s s1 ev hcap hs) hrun

/-! ## Bounds on the buffer -/

theorem onEntry_buffer_le {σ : Type} (b : BatchLogger σ) (bs : Nat)
    (hbs : b.batchSize = (bs : Int)) (w : Worker σ) (e : logEntry)
    (h : w.buffer.length ≤ bs - 1) : (onEntry b w e).buffer.length ≤ bs - 1 := by
  unfold onEntry
  dsimp only
  split_ifs
  · simp
  · simp
  · rename_i hlt
    rw [hbs] at hlt
    simp only [List.length_append, List.length_cons, List.length_nil] at hlt ⊢
    push_cast at hlt
    omega

theorem onTick_buffer {σ : Type} (b : BatchLogger σ) (w : Worker σ) (now : Nat) :
    (onTick b w now).buffer = [] := by
  unfold onTick
  dsimp only
  split_ifs
  · rfl
  · rfl
  · rename_i hlen
    dsimp only at hlen ⊢
    apply List.eq_nil_of_length_eq_zero
    omega

theorem onTick_flushes_of_empty {σ : Type} (b : BatchLogger σ) (w : Worker σ) (now : Nat)
    (hw : w.buffer = []) : (onTick b w now).flushes = w.flushes := by
  simp [onTick, hw]

theorem onDone_buffer {σ : Type} (b : BatchLogger σ) (w : Worker σ) :
    (onDone b w).buffer = w.buffer := by
  unfold onDone
  split <;> rfl

theorem onDone_flushes_of_empty {σ : Type} (b : BatchLogger σ) (w : Worker σ)
    (hw : w.buffer = []) : (onDone b w).flushes = w.flushes := by
  simp [onDone, hw]

theorem onEntry_zero {σ : Type} (b : BatchLogger σ) (hb : b.batchSize = 0) (w : Worker σ)
    (e : logEntry) (hw : w.buffer = []) :
    (onEntry b w e).buffer = [] ∧ (onEntry b w e).flushes = w.flushes ++ [[e]] := by
  have hfull : ((([e] : List logEntry).length : Nat) : Int) ≥ b.batchSize := by
    rw [hb]; exact Int.natCast_nonneg _
  have hsign : ¬ b.batchSize < 0 := by rw [hb]; decide
  simp only [onEntry, hw, List.nil_append, if_pos hfull, if_neg hsign, and_self]

theorem processLogs_buffer_le {σ : Type} (b : BatchLogger σ) (bs : Nat)
    (hbs : b.batchSize = (bs : Int)) (sels : List Select) (w : Worker σ)
    (h : w.buffer.length ≤ bs - 1) : (processLogs b w sels).buffer.length ≤ bs - 1 := by
  induction sels generalizing w with
  | nil => exact h
  | cons sel rest ih =>
    cases sel with
    | entry e => exact ih (onEntry b w e) (onEntry_buffer_le b bs hbs w e h)
    | tick now =>
      refine ih (onTick b w now) ?_
      rw [onTick_buffer]; exact Nat.zero_le _
    | done =>
      simp only [processLogs, onDone_buffer]; exact h

theorem processLogs_zero {σ : Type} (b : BatchLogger σ) (hb : b.batchSize = 0)
    (sels : List Select) (w : Worker σ) (hw : w.buffer = []) :
    (processLogs b w sels).buffer = [] ∧
      (processLogs b w sels).flushes = w.flushes ++ (received sels).map (fun e => [e]) := by
  induction sels generalizing w with
  | nil => simp [processLogs, received, hw]
  | cons sel rest ih =>
    cases sel with
    | entry e =>
      obtain ⟨h1, h2⟩ := onEntry_zero b hb w e hw
      obtain ⟨h3, h4⟩ := ih (onEntry b w e) h1
      refine ⟨h3, ?_⟩
      simp only [processLogs, received, List.map_cons]
      rw [h4, h2, List.append_assoc, List.singleton_append]
    | tick now =>
      obtain ⟨h3, h4⟩ := ih (onTick b w now) (onTick_buffer b w now)
      refine ⟨h3, ?_⟩
      simp only [processLogs, received]
      rw [h4, onTick_flushes_of_empty b w now hw]
    | done =>
      simp only [processLogs, received, List.map_nil, List.append_nil]
      exact ⟨by rw [onDone_buffer]; exact hw, onDone_flushes_of_empty b w hw⟩

theorem step_buffer_le {σ : Type} (b : BatchLogger σ) (bs : Nat)
    (hbs : b.batchSize = (bs : Int)) (s s' : State σ) (ev : Event)
    (h : s.worker.buffer.length ≤ bs - 1) (hstep : step b s ev = some s') :
    s'.worker.buffer.length ≤ bs - 1 := by
  replace hstep := (step_live b s s' ev hstep).1
  cases ev with
  | log m l md =>
    simp only [stepLive, Log] at hstep
    split at hstep
    · cases hstep; exact h
    · split at hstep
      · cases hstep; exact onEntry_buffer_le b bs hbs _ _ h
      · cases hstep
  | close =>
    simp only [stepLive, Close] at hstep
    split at hstep
    · cases hstep
    · cases hstep; exact h
  | recv =>
    simp only [stepLive] at hstep
    split at hstep
    · cases hstep
    · split at hstep
      · cases hstep
      · cases hstep; exact onEntry_buffer_le b bs hbs _ _ h
  | tick =>
    simp only [stepLive] at hstep
    split at hstep
    · cases hstep
    · split at hstep
      · cases hstep
        simp only [onTick_buffer, List.length_nil]; exact Nat.zero_le _
      · cases hstep
  | done =>
    simp only [stepLive] at hstep
    split at hstep
    · cases hstep
    · split at hstep
      · cases hstep
        simp only [onDone_buffer]; exact h
      · cases hstep
  | sleep d =>
    simp only [stepLive, Option.some.injEq] at hstep
    cases hstep; exact h

theorem run_buffer_le {σ : Type} (b : BatchLogger σ) (bs : Nat)
    (hbs : b.batchSize = (bs : Int)) (evs : List Event) (s s' : State σ)
    (h : s.worker.buffer.length ≤ bs - 1) (hrun : run b s evs = some s') :
    s'.worker.buffer.length ≤ bs - 1 := by
  induction evs generalizing s with
  | nil =>
    simp only [run, Option.some.injEq] at hrun
    cases hrun; exact h
  | cons ev evs ih =>
    simp only [run] at hrun
    cases hs : step b s ev with
    | none => rw [hs] at hrun; cases hrun
    | some s1 =>
      rw [hs] at hrun
      exact ih s1 (step_buffer_le b bs hbs s s1 ev h hs) hrun

/-- With batch size 0 and an unbuffered channel, every state has an empty
buffer and an empty channel, and every enqueued entry has been flushed
alone. -/
theorem step_zero {σ : Type} (b : BatchLogger σ) (hb : b.batchSize = 0) (hc : b.chanCap = 0)
    (s s' : State σ) (ev : Event) (hstep : step b s ev = some s')
    (hbuf : s.worker.buffer = []) (hchan : s.logChan = [])
    (hfl : s.worker.flushes = s.enqueued.map (fun e => [e])) :
    s'.worker.buffer = [] ∧ s'.logChan = [] ∧
      s'.worker.flushes = s'.enqueued.map (fun e => [e]) := by
  replace hstep := (step_live b s s' ev hstep).1
  cases ev with
  | log m l md =>
    simp only [stepLive, Log, hc, Nat.not_lt_zero, if_false, true_and] at hstep
    split at hstep
    · cases hstep
      obtain ⟨h1, h2⟩ := onEntry_zero b hb s.worker ⟨m, l, md⟩ hbuf
      refine ⟨h1, hchan, ?_⟩
      simp only [h2, hfl, List.map_append, List.map_cons, List.map_nil]
    · cases hstep
  | close =>
    simp only [stepLive, Close] at hstep
    split at hstep
    · cases hstep
    · cases hstep; exact ⟨hbuf, hchan, hfl⟩
  | recv =>
    simp [stepLive, hchan] at hstep
  | tick =>
    simp only [stepLive] at hstep
    split at hstep
    · cases hstep
    · split at hstep
      · cases hstep
        exact ⟨onTick_buffer b _ _, hchan, by
          simp only [onTick_flushes_of_empty b s.worker s.now hbuf]; exact hfl⟩
      · cases hstep
  | done =>
    simp only [stepLive] at hstep
    split at hstep
    · cases hstep
    · split at hstep
      · cases hstep
        exact ⟨by simp only [onDone_buffer]; exact hbuf, hchan, by
          simp only [onDone_flushes_of_empty b s.worker hbuf]; exact hfl⟩
      · cases hstep
  | sleep d =>
    simp only [stepLive, Option.some.injEq] at hstep
    cases hstep; exact ⟨hbuf, hchan, hfl⟩

theorem run_zero {σ : Type} (b : BatchLogger σ) (hb : b.batchSize = 0) (hc : b.chanCap = 0)
    (evs : List Event) (s s' : State σ) (hrun : run b s evs = some s')
    (hbuf : s.worker.buffer = []) (hchan : s.logChan = [])
    (hfl : s.worker.flushes = s.enqueued.map (fun e => [e])) :
    s'.worker.buffer = [] ∧ s'.logChan = [] ∧
      s'.worker.flushes = s'.enqueued.map (fun e => [e]) := by
  induction evs generalizing s with
  | nil =>
    simp only [run, Option.some.injEq] at hrun
    cases hrun; exact ⟨hbuf, hchan, hfl⟩
  | cons ev evs ih =>
    simp only [run] at hrun
    cases hs : step b s ev with
    | none => rw [hs] at hrun; cases hrun
    | some s1 =>
      rw [hs] at hrun
      obtain ⟨h1, h2, h3⟩ := step_zero b hb hc s s1 ev hs hbuf hchan hfl
      exact ih s1 hrun h1 h2 h3

/-- What `NewBatchLogger` returns when it returns: the batch size as given,
a channel of twice that capacity, and the initial state. -/
theorem NewBatchLogger_some {σ : Type} (client : LogClient σ) (st : σ) (bs : Nat)
    (interval : Int) (now : Nat) (lg : BatchLogger σ) (s0 : State σ) (hint : bs < 2 ^ 63)
    (hnew : NewBatchLogger client st (bs : Int) interval now = some (lg, s0)) :
    lg.chanCap = 2 * bs ∧ lg.batchSize = bs ∧ s0 = State.init lg st now := by
  unfold NewBatchLogger at hnew
  dsimp only at hnew
  split at hnew
  · cases hnew
  · rename_i hsize
    split at hnew
    · cases hnew
    · simp only [Option.some.injEq, Prod.mk.injEq] at hnew
      obtain ⟨h1, h2⟩ := hnew
      subst h1
      subst h2
      refine ⟨?_, rfl, rfl⟩
      dsimp only
      have hlt : (bs : Int) < 2 ^ 63 := by exact_mod_cast hint
      unfold wrapInt64 at hsize ⊢
      omega

/-- A logger built with batch size `-2^63`: `batchSize*2` wraps to 0, so the
constructor succeeds with an unbuffered channel; the first `Log` call hands A
to the worker, which flushes it and panics, and nothing can happen after. -/
theorem NewBatchLogger_minInt_panics :
    ((NewBatchLogger okClient () (-9223372036854775808) 10 0).bind (fun p =>
        run p.1 p.2 [Event.log "A" "info" []])).map
      (fun s => (s.worker.sink.calls, s.worker.panicked)) = some ([entryA], true) ∧
    ((NewBatchLogger okClient () (-9223372036854775808) 10 0).bind (fun p =>
        run p.1 p.2 [Event.log "A" "info" [], Event.sleep 1])).isNone = true := by
  decide

/-! ## Properties of the logger -/

/-- C1: for a batch size `bs ≥ 1`, a worker that starts with an empty buffer
and receives the entries `es` (no timer fire, no close signal) invokes
`flushLogs` exactly `es.length / bs` times, the `i`-th invocation carrying
entries `i*bs .. i*bs+bs-1` of `es` in order; the remaining
`es.length % bs` entries are left in the buffer in order, and the sink has
been handed exactly the flushed entries. -/
theorem C1_size_triggered_batches {σ : Type} (b : BatchLogger σ) (bs : Nat)
    (hbs : b.batchSize = (bs : Int)) (hpos : 1 ≤ bs) (sink : Sink σ) (now : Nat)
    (es : List logEntry) :
    (processLogs b (Worker.start b sink now) (es.map Select.entry)).flushes
        = (List.range (es.length / bs)).map (fun i => (es.drop (i * bs)).take bs) ∧
      (∀ i, i < es.length / bs → ((es.drop (i * bs)).take bs).length = bs) ∧
      (processLogs b (Worker.start b sink now) (es.map Select.entry)).buffer
        = es.drop (es.length / bs * bs) ∧
      (processLogs b (Worker.start b sink now) (es.map Select.entry)).buffer.length
        = es.length % bs ∧
      (processLogs b (Worker.start b sink now) (es.map Select.entry)).sink.calls
        = sink.calls ++ es.take (es.length / bs * bs) := by
  obtain ⟨q, hlo, hhi, hfl, hbuf, hcalls, -, -⟩ :=
    entries_invariant b bs hbs hpos (Worker.start b sink now) rfl es
  have hq : es.length / bs = q :=
    Nat.div_eq_of_lt_le (by simpa [Nat.mul_comm] using hlo)
      (by rw [Nat.succ_mul]; simpa [Nat.mul_comm] using hhi)
  rw [processLogs_entries, hq]
  have hmod : es.length % bs = es.length - q * bs := by
    have := Nat.div_add_mod es.length bs
    rw [hq, Nat.mul_comm] at this
    omega
  refine ⟨by simpa [Worker.start] using hfl, ?_, hbuf, ?_, by simpa [Worker.start] using hcalls⟩
  · intro i hi
    have h1 : (i + 1) * bs ≤ q * bs := Nat.mul_le_mul_right bs hi
    rw [Nat.succ_mul] at h1
    simp
    omega
  · rw [hbuf, hmod]; simp

/-- C1, the scenario of the specification: batch size 3 and entries A, B, C,
D give one flush `[A, B, C]` and leave `[D]` in the buffer. -/
theorem C1_size_triggered_batches_witness :
    (1 : Nat) ≤ 3 ∧
    (processLogs (⟨flakyClient, 3, 3600, 6⟩ : BatchLogger Nat)
        (Worker.start ⟨flakyClient, 3, 3600, 6⟩ ⟨0, [], []⟩ 0)
        ([entryA, entryB, entryC, entryD].map Select.entry)).flushes
        = [[entryA, entryB, entryC]] ∧
    (processLogs (⟨flakyClient, 3, 3600, 6⟩ : BatchLogger Nat)
        (Worker.start ⟨flakyClient, 3, 3600, 6⟩ ⟨0, [], []⟩ 0)
        ([entryA, entryB, entryC, entryD].map Select.entry)).buffer
        = [entryD] := by
  have h := C1_size_triggered_batches (⟨flakyClient, 3, 3600, 6⟩ : BatchLogger Nat) 3 rfl
    (by decide) ⟨0, [], []⟩ 0 [entryA, entryB, entryC, entryD]
  refine ⟨by decide, ?_, ?_⟩
  · rw [h.1]; decide
  · rw [h.2.2.1]; decide

/-- C2: the code at the failing input. Batch size 3; `Log` of
entry A completes, `Close()` is called, and the worker's `select` takes the
`done` branch while A is still in `logChan`: the worker returns having
handed nothing to the sink, A stays in the channel, and no `recv` step can
follow, although A was enqueued before `Close()` was called. -/
theorem C2_done_leaves_channel_unread :
    ((NewBatchLogger okClient () 3 3600 0).bind (fun p =>
        run p.1 p.2 [Event.log "A" "info" [], Event.close, Event.done])).map
      (fun s => (s.worker.exited, s.worker.sink.calls, s.logChan, s.enqueued))
        = some (true, [], [entryA], [entryA]) ∧
    ((NewBatchLogger okClient () 3 3600 0).bind (fun p =>
        run p.1 p.2 [Event.log "A" "info" [], Event.close, Event.done, Event.recv])).isNone
        = true := by
  decide

/-- C3: `flushLogs` calls `SendLog` exactly once per entry of `logs`, in list
order, with that entry's message, level and metadata, for every client,
whichever of its calls fail: the trace of calls grows by exactly `logs`, the
client ends in the state that one `SendLog` call per entry in order leads
to, and the error log grows by exactly the errors those calls returned. An
entry `e` that follows the entries `pre` is sent in the client state reached
after `pre`, whatever the calls for `pre` returned, and the entries after it
are sent in turn. `flushLogs` hands no error back. With the recording sink
that rejects entry B, A, B and C are all sent, in order, and one error is
logged; with the sink that fails on its first and third call all three are
sent too. -/
theorem C3_flushLogs_attempts_every_entry {σ : Type} (c : LogClient σ)
    (logs : List logEntry) (w : Sink σ) :
    (flushLogs c logs w).calls = w.calls ++ logs ∧
      (flushLogs c logs w).calls.length = w.calls.length + logs.length ∧
      (∀ k : Nat, ∀ hk : k < logs.length,
        (flushLogs c logs w).calls[w.calls.length + k]? = some logs[k]) ∧
      w.errors.length ≤ (flushLogs c logs w).errors.length ∧
      (flushLogs c logs w).errors.length ≤ w.errors.length + logs.length ∧
      (flushLogs c logs w).client = callAll c w.client logs ∧
      (flushLogs c logs w).errors = w.errors ++ callErrors c w.client logs ∧
      (∀ (pre post : List logEntry) (e : logEntry),
        (flushLogs c (pre ++ e :: post) w).client
          = callAll c (c.SendLog (flushLogs c pre w).client e.message e.level e.metadata).1
              post) ∧
      (flushLogs recordingClient [entryA, entryB, entryC] ⟨[], [], []⟩).client
        = [entryA, entryB, entryC] ∧
      (flushLogs recordingClient [entryA, entryB, entryC] ⟨[], [], []⟩).errors
        = ["rejected B"] ∧
      (flushLogs flakyClient [entryA, entryB, entryC] ⟨0, [], []⟩).client = 3 ∧
      (flushLogs flakyClient [entryA, entryB, entryC] ⟨0, [], []⟩).errors
        = ["unavailable", "unavailable"] := by
  have h := flushLogs_calls c logs w
  refine ⟨h, by rw [h]; simp, ?_, (flushLogs_errors c logs w).1, (flushLogs_errors c logs w).2,
    flushLogs_client c logs w, flushLogs_errors_eq c logs w, ?_, by decide, by decide,
    by decide, by decide⟩
  · intro k hk
    rw [h, List.getElem?_append_right (by omega)]
    simp [hk]
  · intro pre post e
    rw [flushLogs_append, flushLogs_client, sendOne_client]

/-- C4: in every state reached from the start by `Log`, `Close`, entry-receive,
timer-fire and time steps (the close signal not yet taken), the entries
handed to `SendLog`, followed by the buffer, followed by the contents of
`logChan`, are exactly the entries enqueued by `Log`, which are the entries
of the `Log` events in order; so the sink sequence is a prefix of the enqueue
sequence: its `k`-th call is the `k`-th enqueued entry. -/
theorem C4_sink_buffer_channel_is_enqueued {σ : Type} (b : BatchLogger σ) (st : σ) (now : Nat)
    (evs : List Event) (s : State σ) (hev : Event.done ∉ evs)
    (hrun : run b (State.init b st now) evs = some s) :
    s.worker.sink.calls ++ s.worker.buffer ++ s.logChan = s.enqueued ∧
      s.enqueued = logged evs ∧
      s.worker.sink.calls <+: s.enqueued ∧
      s.worker.sink.calls = s.enqueued.take s.worker.sink.calls.length := by
  obtain ⟨hinv, -, -⟩ := run_invariant b evs (State.init b st now) s hev hrun rfl
    (Nat.zero_le _) rfl
  have henq := run_enqueued b evs (State.init b st now) s hrun
  have hpre : s.worker.sink.calls <+: s.enqueued :=
    ⟨s.worker.buffer ++ s.logChan, by rw [← List.append_assoc]; exact hinv⟩
  refine ⟨hinv, by simpa [State.init] using henq, hpre, ?_⟩
  exact (List.prefix_iff_eq_take.mp hpre)

/-- C4 on the run `demoEvents` of `demoLogger`. -/
theorem C4_sink_buffer_channel_is_enqueued_witness :
    Event.done ∉ demoEvents ∧
    run demoLogger (State.init demoLogger 0 0) demoEvents = some demoFinal ∧
    (demoFinal.worker.sink.calls ++ demoFinal.worker.buffer ++ demoFinal.logChan
        = demoFinal.enqueued ∧
      demoFinal.enqueued = logged demoEvents ∧
      demoFinal.worker.sink.calls <+: demoFinal.enqueued ∧
      demoFinal.worker.sink.calls
        = demoFinal.enqueued.take demoFinal.worker.sink.calls.length) :=
  ⟨by decide, rfl,
    C4_sink_buffer_channel_is_enqueued demoLogger 0 0 demoEvents demoFinal (by decide) rfl⟩

/-- C5: a worker that starts with an empty buffer and receives fewer entries
than the batch size (no timer fire, no close signal) never calls `SendLog`:
the sink is untouched, no flush has happened, and the buffer holds all the
entries in order. -/
theorem C5_below_batch_size_nothing_sent {σ : Type} (b : BatchLogger σ) (sink : Sink σ)
    (now : Nat) (es : List logEntry) (h : (es.length : Int) < b.batchSize) :
    (processLogs b (Worker.start b sink now) (es.map Select.entry)).sink = sink ∧
      (processLogs b (Worker.start b sink now) (es.map Select.entry)).flushes = [] ∧
      (processLogs b (Worker.start b sink now) (es.map Select.entry)).buffer = es := by
  rw [processLogs_entries, foldl_onEntry_below b es (Worker.start b sink now)
    (by simpa [Worker.start] using h)]
  exact ⟨rfl, rfl, by simp [Worker.start]⟩

/-- C5 with batch size 2 and the single entry A. -/
theorem C5_below_batch_size_nothing_sent_witness :
    (([entryA].length : Nat) : Int) < demoLogger.batchSize ∧
    ((processLogs demoLogger (Worker.start demoLogger ⟨0, [], []⟩ 0)
        ([entryA].map Select.entry)).sink = ⟨0, [], []⟩ ∧
      (processLogs demoLogger (Worker.start demoLogger ⟨0, [], []⟩ 0)
        ([entryA].map Select.entry)).flushes = [] ∧
      (processLogs demoLogger (Worker.start demoLogger ⟨0, [], []⟩ 0)
        ([entryA].map Select.entry)).buffer = [entryA]) :=
  ⟨by decide, C5_below_batch_size_nothing_sent demoLogger ⟨0, [], []⟩ 0 [entryA] (by decide)⟩

/-- C6: a timer-fire step hands every buffered entry to `SendLog` once, in
buffer order, and leaves the buffer empty, whatever the sink answers: the
client ends in the state that one `SendLog` call per buffered entry in order
leads to, and the errors of those calls are logged. It is one `flushLogs`
call when the buffer is non-empty and none when it is empty, in which case
the sink is untouched. The worker goes on unless the batch size is negative
and the buffer was non-empty. With batch size 100, one entry received and
then one timer fire, the sink receives exactly that entry, in one flush, also
when the sink rejects it. -/
theorem C6_timer_fire_flushes_buffer {σ : Type} (b : BatchLogger σ) (w : Worker σ) (now : Nat)
    (c : LogClient σ) (sink : Sink σ) (e : logEntry) (interval : Int) (start : Nat) :
    (onTick b w now).sink.calls = w.sink.calls ++ w.buffer ∧
      (onTick b w now).buffer = [] ∧
      (onTick b w now).flushes
        = (if w.buffer = [] then w.flushes else w.flushes ++ [w.buffer]) ∧
      (onTick b { w with buffer := [] } now).sink = w.sink ∧
      (processLogs ⟨c, 100, interval, 200⟩ (Worker.start ⟨c, 100, interval, 200⟩ sink start)
          [Select.entry e, Select.tick now]).sink.calls = sink.calls ++ [e] ∧
      (processLogs ⟨c, 100, interval, 200⟩ (Worker.start ⟨c, 100, interval, 200⟩ sink start)
          [Select.entry e, Select.tick now]).flushes = [[e]] ∧
      (onTick b w now).sink.client = callAll b.client w.sink.client w.buffer ∧
      (onTick b w now).sink.errors = w.sink.errors ++ callErrors b.client w.sink.client w.buffer ∧
      (onTick b w now).panicked
        = (w.panicked || (decide (w.buffer ≠ []) && decide (b.batchSize < 0))) ∧
      (processLogs ⟨c, 100, interval, 200⟩ (Worker.start ⟨c, 100, interval, 200⟩ sink start)
          [Select.entry e, Select.tick now]).sink.client
        = (c.SendLog sink.client e.message e.level e.metadata).1 ∧
      (processLogs ⟨c, 100, interval, 200⟩ (Worker.start ⟨c, 100, interval, 200⟩ sink start)
          [Select.entry e, Select.tick now]).sink.errors
        = sink.errors ++ callErrors c sink.client [e] ∧
      (processLogs ⟨c, 100, interval, 200⟩ (Worker.start ⟨c, 100, interval, 200⟩ sink start)
          [Select.entry e, Select.tick now]).panicked = false ∧
      (processLogs ⟨recordingClient, 100, 50, 200⟩
          (Worker.start ⟨recordingClient, 100, 50, 200⟩ ⟨[], [], []⟩ 0)
          [Select.entry entryB, Select.tick 60]).sink
        = ⟨[entryB], [entryB], ["rejected B"]⟩ ∧
      (processLogs ⟨recordingClient, 100, 50, 200⟩
          (Worker.start ⟨recordingClient, 100, 50, 200⟩ ⟨[], [], []⟩ 0)
          [Select.entry entryB, Select.tick 60]).buffer = [] := by
  have hscen : processLogs ⟨c, 100, interval, 200⟩
      (Worker.start ⟨c, 100, interval, 200⟩ sink start) [Select.entry e, Select.tick now]
      = onTick ⟨c, 100, interval, 200⟩
          { Worker.start ⟨c, 100, interval, 200⟩ sink start with buffer := [e] } now := by
    simp [processLogs, onEntry, Worker.start]
  have hpan : (onTick b w now).panicked
      = (w.panicked || (decide (w.buffer ≠ []) && decide (b.batchSize < 0))) := by
    unfold onTick
    dsimp only
    cases hb : w.buffer with
    | nil => simp
    | cons x xs =>
      by_cases hneg : b.batchSize < 0 <;> simp [hneg]
  refine ⟨?_, onTick_buffer b w now, ?_, ?_, ?_, ?_, ?_, ?_, hpan, ?_, ?_, ?_, rfl, rfl⟩
  · rw [onTick_sink, flushLogs_calls]
  · cases hb : w.buffer with
    | nil => simp [onTick_flushes_of_empty b w now hb]
    | cons x xs => rw [onTick_flushes_of_cons b w now x xs hb, hb]; simp
  · rw [onTick_sink]; rfl
  · rw [hscen, onTick_sink, flushLogs_calls]; simp [Worker.start]
  · rw [hscen, onTick_flushes_of_cons _ _ now e [] rfl]; simp [Worker.start]
  · rw [onTick_sink, flushLogs_client]
  · rw [onTick_sink, flushLogs_errors_eq]
  · rw [hscen, onTick_sink, flushLogs_client]; simp [Worker.start, callAll]
  · rw [hscen, onTick_sink, flushLogs_errors_eq]; simp [Worker.start]
  · rw [hscen]
    unfold onTick
    dsimp only
    simp [Worker.start]

/-- C7: when the worker takes the close signal it hands the whole buffer to
the sink in order, by one `flushLogs` call if the buffer is non-empty and by
none if it is empty (the sink is then untouched), and returns: whatever its
`select` would have picked afterwards is not processed, and in the running
logger no later event changes the worker, so no `SendLog` call follows. -/
theorem C7_close_signal_flushes_once_and_stops {σ : Type} (b : BatchLogger σ) (w : Worker σ)
    (rest : List Select) (s s' : State σ) (evs : List Event)
    (hrun : run b { s with worker := onDone b s.worker } evs = some s') :
    processLogs b w (Select.done :: rest) = onDone b w ∧
      (onDone b w).exited = true ∧
      (onDone b w).sink.calls = w.sink.calls ++ w.buffer ∧
      (onDone b w).flushes = (if w.buffer = [] then w.flushes else w.flushes ++ [w.buffer]) ∧
      (onDone b { w with buffer := [] }).sink = w.sink ∧
      step b { s with worker := onDone b s.worker } Event.recv = none ∧
      step b { s with worker := onDone b s.worker } Event.tick = none ∧
      step b { s with worker := onDone b s.worker } Event.done = none ∧
      s'.worker = onDone b s.worker := by
  have hex : ∀ v : Worker σ, (onDone b v).exited = true := by
    intro v
    unfold onDone
    split <;> rfl
  refine ⟨rfl, hex w, ?_, ?_, ?_, ?_, ?_, ?_, ?_⟩
  · cases hb : w.buffer with
    | nil => simp [onDone, hb]
    | cons x xs => simp [onDone, hb, flushLogs_calls]
  · cases hb : w.buffer with
    | nil => simp [onDone, hb]
    | cons x xs => simp [onDone, hb]
  · simp [onDone]
  · simp [step, stepLive, hex]
  · simp [step, stepLive, hex]
  · simp [step, stepLive, hex]
  · exact run_exited b evs _ s' (hex s.worker) hrun

/-- C7 on `demoClosing`: D is flushed alone when the close signal is taken,
and the `Log` call and the time step that follow leave the worker as it is. -/
theorem C7_close_signal_flushes_once_and_stops_witness :
    run demoLogger (State.init demoLogger 0 0)
        (demoEvents ++ [Event.log "D" "error" [], Event.recv, Event.close])
        = some demoClosing ∧
    run demoLogger { demoClosing with worker := onDone demoLogger demoClosing.worker }
        [Event.log "A" "info" [], Event.sleep 5] = some demoAfter ∧
    (onDone demoLogger demoClosing.worker).sink.calls = [entryA, entryB, entryC, entryD] ∧
    (processLogs demoLogger demoClosing.worker (Select.done :: [Select.entry entryA])
        = onDone demoLogger demoClosing.worker ∧
      (onDone demoLogger demoClosing.worker).exited = true ∧
      (onDone demoLogger demoClosing.worker).sink.calls
        = demoClosing.worker.sink.calls ++ demoClosing.worker.buffer ∧
      (onDone demoLogger demoClosing.worker).flushes
        = (if demoClosing.worker.buffer = [] then demoClosing.worker.flushes
            else demoClosing.worker.flushes ++ [demoClosing.worker.buffer]) ∧
      (onDone demoLogger { demoClosing.worker with buffer := [] }).sink
        = demoClosing.worker.sink ∧
      step demoLogger { demoClosing with worker := onDone demoLogger demoClosing.worker }
        Event.recv = none ∧
      step demoLogger { demoClosing with worker := onDone demoLogger demoClosing.worker }
        Event.tick = none ∧
      step demoLogger { demoClosing with worker := onDone demoLogger demoClosing.worker }
        Event.done = none ∧
      demoAfter.worker = onDone demoLogger demoClosing.worker) :=
  ⟨rfl, rfl, by decide,
    C7_close_signal_flushes_once_and_stops demoLogger demoClosing.worker [Select.entry entryA]
      demoClosing demoAfter [Event.log "A" "info" [], Event.sleep 5] rfl⟩

/-- C8 as stated fails at batch size 0: `NewBatchLogger` makes
`logChan` with capacity `2*0 = 0`, the channel holds 0 entries (not fewer
than `2*0`), yet a `Log` call completes, and it leaves the channel empty
instead of holding the entry: the entry has gone straight to the worker. -/
theorem C8_unbuffered_channel_counterexample :
    (NewBatchLogger okClient () 0 3600 0).map (fun p =>
        (p.1.chanCap, p.2.logChan.length, decide (p.2.logChan.length < 2 * 0),
          (Log p.1 p.2 "A" "info" []).map (fun s => (s.logChan, s.worker.sink.calls))))
      = some (0, 0, false, some ([], [entryA])) := by
  rfl

/-- C8, amended to batch sizes `bs ≥ 1`: a logger built by `NewBatchLogger`
has a `logChan` of capacity exactly `2*bs`; in every reachable state the
channel holds at most `2*bs` entries, a `Log` call completes exactly when it
holds fewer than `2*bs`, and a completed `Log` call puts exactly its entry
(message, level, metadata as given) at the tail of the channel and changes
nothing else but the trace of enqueued entries. -/
theorem C8_channel_capacity_and_log {σ : Type} (client : LogClient σ) (st : σ) (bs : Nat)
    (interval : Int) (now : Nat) (lg : BatchLogger σ) (s0 s : State σ) (evs : List Event)
    (hpos : 1 ≤ bs) (hint : bs < 2 ^ 63)
    (hnew : NewBatchLogger client st (bs : Int) interval now = some (lg, s0))
    (hrun : run lg s0 evs = some s) :
    lg.chanCap = 2 * bs ∧ lg.batchSize = bs ∧ s0.logChan = [] ∧
      s.logChan.length ≤ 2 * bs ∧
      ∀ (message level : String) (metadata : Metadata),
        ((Log lg s message level metadata).isSome = true ↔ s.logChan.length < 2 * bs) ∧
        ∀ s1, Log lg s message level metadata = some s1 →
          s1.logChan = s.logChan ++ [⟨message, level, metadata⟩] ∧
          s1.worker = s.worker ∧ s1.doneClosed = s.doneClosed ∧ s1.now = s.now ∧
          s1.enqueued = s.enqueued ++ [⟨message, level, metadata⟩] := by
  have hcap : lg.chanCap = 2 * bs ∧ lg.batchSize = bs ∧ s0.logChan = [] := by
    unfold NewBatchLogger at hnew
    dsimp only at hnew
    split at hnew
    · cases hnew
    · rename_i hsize
      split at hnew
      · cases hnew
      · simp only [Option.some.injEq, Prod.mk.injEq] at hnew
        obtain ⟨h1, h2⟩ := hnew
        subst h1
        subst h2
        refine ⟨?_, rfl, rfl⟩
        dsimp only
        have hlt : (bs : Int) < 2 ^ 63 := by exact_mod_cast hint
        unfold wrapInt64 at hsize ⊢
        omega
  obtain ⟨hc, hb, h0⟩ := hcap
  have hlen : s.logChan.length ≤ lg.chanCap :=
    run_capacity lg evs s0 s (by rw [h0]; exact Nat.zero_le _) hrun
  refine ⟨hc, hb, h0, by omega, ?_⟩
  intro message level metadata
  have hne : ¬ (lg.chanCap = 0 ∧ s.worker.exited = false) := by
    intro h; omega
  constructor
  · simp only [Log, if_neg hne]
    constructor
    · intro h
      by_contra hfull
      rw [hc] at h
      simp [hfull] at h
    · intro h
      rw [hc]
      simp [h]
  · intro s1 h1
    simp only [Log, if_neg hne] at h1
    split at h1
    · cases h1
      exact ⟨rfl, rfl, rfl, rfl, rfl⟩
    · cases h1

/-- C8 on `demoLogger` (batch size 2, capacity 4) after the run `demoEvents`. -/
theorem C8_channel_capacity_and_log_witness :
    1 ≤ 2 ∧ 2 < 2 ^ 63 ∧
    NewBatchLogger flakyClient 0 ((2 : Nat) : Int) 10 0
      = some (demoLogger, State.init demoLogger 0 0) ∧
    run demoLogger (State.init demoLogger 0 0) demoEvents = some demoFinal ∧
    (demoLogger.chanCap = 2 * 2 ∧ demoLogger.batchSize = (2 : Nat) ∧
      (State.init demoLogger 0 0).logChan = [] ∧
      demoFinal.logChan.length ≤ 2 * 2 ∧
      ∀ (message level : String) (metadata : Metadata),
        ((Log demoLogger demoFinal message level metadata).isSome = true
            ↔ demoFinal.logChan.length < 2 * 2) ∧
        ∀ s1, Log demoLogger demoFinal message level metadata = some s1 →
          s1.logChan = demoFinal.logChan ++ [⟨message, level, metadata⟩] ∧
          s1.worker = demoFinal.worker ∧ s1.doneClosed = demoFinal.doneClosed ∧
          s1.now = demoFinal.now ∧
          s1.enqueued = demoFinal.enqueued ++ [⟨message, level, metadata⟩]) :=
  ⟨by decide, by decide, rfl, rfl,
    C8_channel_capacity_and_log flakyClient 0 2 10 0 demoLogger (State.init demoLogger 0 0)
      demoFinal demoEvents (by decide) (by decide) rfl rfl⟩

/-- C9 as stated fails: batch size 2, flush interval 10, logger
started at time 0. A and B are received at time 9, which triggers the
size flush `[A, B]`; the ticker still has its next tick due at time 10. C is
received, and at time 10 the timer fires and flushes `[C]`: one time unit,
not a full interval of 10, after the size-triggered flush. -/
theorem C9_timer_not_reset_counterexample :
    ((NewBatchLogger okClient () 2 10 0).bind (fun p =>
        run p.1 p.2 [Event.sleep 9, Event.log "A" "info" [], Event.recv,
          Event.log "B" "warn" [("k", "v")], Event.recv])).map
      (fun s => (s.now, s.worker.flushes, s.worker.ticker.next))
        = some (9, [[entryA, entryB]], 10) ∧
    ((NewBatchLogger okClient () 2 10 0).bind (fun p =>
        run p.1 p.2 [Event.sleep 9, Event.log "A" "info" [], Event.recv,
          Event.log "B" "warn" [("k", "v")], Event.recv,
          Event.log "C" "info" [], Event.recv, Event.sleep 1, Event.tick])).map
      (fun s => (s.now, s.worker.flushes))
        = some (10, [[entryA, entryB], [entryC]]) ∧
    ¬ (9 + 10 ≤ 10) := by
  decide

/-- C9, amended: when receiving an entry makes the buffer length reach the
batch size, the worker flushes at once: one `flushLogs` call carrying the
buffer with the new entry at its end, so that each of these entries is sent
to `SendLog` once, in order. The ticker is left as it was: the next tick
stays due at the time already scheduled. For a batch size that is not
negative the buffer is then empty and the worker goes on; for a negative
batch size the worker panics after the flush. -/
theorem C9_size_flush_leaves_ticker {σ : Type} (b : BatchLogger σ) (w : Worker σ)
    (e : logEntry) (h : ((w.buffer.length + 1 : Nat) : Int) ≥ b.batchSize) :
    (onEntry b w e).flushes = w.flushes ++ [w.buffer ++ [e]] ∧
      (onEntry b w e).sink.calls = w.sink.calls ++ (w.buffer ++ [e]) ∧
      (onEntry b w e).sink.client = callAll b.client w.sink.client (w.buffer ++ [e]) ∧
      (onEntry b w e).sink.errors
        = w.sink.errors ++ callErrors b.client w.sink.client (w.buffer ++ [e]) ∧
      (onEntry b w e).ticker = w.ticker ∧
      (0 ≤ b.batchSize →
        (onEntry b w e).buffer = [] ∧ (onEntry b w e).panicked = w.panicked) ∧
      (b.batchSize < 0 → (onEntry b w e).panicked = true) := by
  have hfull : (((w.buffer ++ [e]).length : Nat) : Int) ≥ b.batchSize := by
    simpa using h
  obtain ⟨hsink, hfl, hbuf, hpan⟩ := onEntry_sink b w e hfull
  refine ⟨hfl, ?_, ?_, ?_, onEntry_ticker b w e, ?_, ?_⟩
  · rw [hsink, flushLogs_calls]
  · rw [hsink, flushLogs_client]
  · rw [hsink, flushLogs_errors_eq]
  · intro hpos
    refine ⟨hbuf, ?_⟩
    rw [hpan]
    have : ¬ b.batchSize < 0 := by omega
    simp [this]
  · intro hneg
    rw [hpan]
    simp [hneg]

/-- C9 amended, on `demoLogger` (batch size 2) with A buffered and B
arriving, and on a logger of batch size `-2^63` with an empty buffer and A
arriving. -/
theorem C9_size_flush_leaves_ticker_witness :
    ((((([entryA] : List logEntry).length + 1 : Nat) : Int) ≥ demoLogger.batchSize) ∧
      0 ≤ demoLogger.batchSize ∧
      (onEntry demoLogger ⟨[entryA], ⟨10, 10⟩, ⟨0, [], []⟩, [], false, false⟩ entryB).flushes
        = [] ++ [[entryA] ++ [entryB]] ∧
      (onEntry demoLogger ⟨[entryA], ⟨10, 10⟩, ⟨0, [], []⟩, [], false, false⟩ entryB).sink.calls
        = [] ++ ([entryA] ++ [entryB]) ∧
      (onEntry demoLogger ⟨[entryA], ⟨10, 10⟩, ⟨0, [], []⟩, [], false, false⟩ entryB).sink.client
        = callAll demoLogger.client 0 ([entryA] ++ [entryB]) ∧
      (onEntry demoLogger ⟨[entryA], ⟨10, 10⟩, ⟨0, [], []⟩, [], false, false⟩ entryB).sink.errors
        = [] ++ callErrors demoLogger.client 0 ([entryA] ++ [entryB]) ∧
      (onEntry demoLogger ⟨[entryA], ⟨10, 10⟩, ⟨0, [], []⟩, [], false, false⟩ entryB).ticker
        = ⟨10, 10⟩ ∧
      (onEntry demoLogger ⟨[entryA], ⟨10, 10⟩, ⟨0, [], []⟩, [], false, false⟩ entryB).buffer
        = [] ∧
      (onEntry demoLogger ⟨[entryA], ⟨10, 10⟩, ⟨0, [], []⟩, [], false, false⟩ entryB).panicked
        = false ∧
      (onEntry demoLogger ⟨[entryA], ⟨10, 10⟩, ⟨0, [], []⟩, [], false, false⟩ entryB).sink
        = ⟨2, [entryA, entryB], ["unavailable"]⟩) ∧
    ((((([] : List logEntry).length + 1 : Nat) : Int) ≥ -9223372036854775808) ∧
      (-9223372036854775808 : Int) < 0 ∧
      (onEntry ⟨okClient, -9223372036854775808, 10, 0⟩
          ⟨[], ⟨10, 10⟩, ⟨(), [], []⟩, [], false, false⟩ entryA).sink.calls = [] ++ ([] ++ [entryA]) ∧
      (onEntry ⟨okClient, -9223372036854775808, 10, 0⟩
          ⟨[], ⟨10, 10⟩, ⟨(), [], []⟩, [], false, false⟩ entryA).panicked = true) := by
  have h2 := C9_size_flush_leaves_ticker demoLogger
    ⟨[entryA], ⟨10, 10⟩, ⟨0, [], []⟩, [], false, false⟩ entryB (by decide)
  have hm := C9_size_flush_leaves_ticker (⟨okClient, -9223372036854775808, 10, 0⟩ : BatchLogger Unit)
    ⟨[], ⟨10, 10⟩, ⟨(), [], []⟩, [], false, false⟩ entryA (by decide)
  exact ⟨⟨by decide, by decide, h2.1, h2.2.1, h2.2.2.1, h2.2.2.2.1, h2.2.2.2.2.1,
      (h2.2.2.2.2.2.1 (by decide)).1, (h2.2.2.2.2.2.1 (by decide)).2, rfl⟩,
    ⟨by decide, by decide, hm.2.1, hm.2.2.2.2.2.2 (by decide)⟩⟩

/-- C10: the code at the failing input. The stored sequence
token is nil, the only `PutLogEvents` call fails with
`InvalidSequenceTokenException`, and `DescribeLogStreams` succeeds with no
stream: `SendLog` makes no second `PutLogEvents` call and returns nil, so it
reports success although no `PutLogEvents` call succeeded. -/
theorem C10_SendLog_nil_without_successful_put :
    (CloudWatchLogger.SendLog staleSvc plainEnv ⟨"/grades-service", "application", none⟩ ()
        "m" "info" []).outcome = Outcome.nil ∧
    (CloudWatchLogger.SendLog staleSvc plainEnv ⟨"/grades-service", "application", none⟩ ()
        "m" "info" []).puts = [false] := by
  decide

/-- C11: for a logger built by `NewBatchLogger` with batch size `bs`: if
`bs ≥ 1`, the buffer holds at most `bs - 1` entries after every step of the
worker (entry received, timer fire, close signal) and in every reachable
state of the logger, so that buffer and `logChan` together never hold more
than `3*bs - 1` entries, which bounds the entries enqueued and not yet handed
to the sink; if `bs = 0`, every received entry is flushed alone at once, and
the buffer (and the unbuffered channel) is empty after every step. -/
theorem C11_buffer_below_batch_size {σ : Type} (client : LogClient σ) (st : σ) (bs : Nat)
    (interval : Int) (now : Nat) (lg : BatchLogger σ) (s0 s : State σ) (evs : List Event)
    (sels : List Select) (hint : bs < 2 ^ 63)
    (hnew : NewBatchLogger client st (bs : Int) interval now = some (lg, s0))
    (hrun : run lg s0 evs = some s) :
    (1 ≤ bs →
        (processLogs lg s0.worker sels).buffer.length ≤ bs - 1 ∧
        s.worker.buffer.length ≤ bs - 1 ∧
        s.logChan.length ≤ 2 * bs ∧
        s.worker.buffer.length + s.logChan.length ≤ 3 * bs - 1 ∧
        (Event.done ∉ evs →
          s.enqueued.length ≤ s.worker.sink.calls.length + (3 * bs - 1))) ∧
      (bs = 0 →
        (processLogs lg s0.worker sels).buffer = [] ∧
        (processLogs lg s0.worker sels).flushes = (received sels).map (fun e => [e]) ∧
        s.worker.buffer = [] ∧ s.logChan = [] ∧
        s.worker.flushes = s.enqueued.map (fun e => [e])) := by
  obtain ⟨hc, hb, h0⟩ := NewBatchLogger_some client st bs interval now lg s0 hint hnew
  subst h0
  constructor
  · intro hpos
    have hw : (processLogs lg (State.init lg st now).worker sels).buffer.length ≤ bs - 1 :=
      processLogs_buffer_le lg bs hb sels _ (Nat.zero_le _)
    have hbuf : s.worker.buffer.length ≤ bs - 1 :=
      run_buffer_le lg bs hb evs _ s (Nat.zero_le _) hrun
    have hchan : s.logChan.length ≤ lg.chanCap :=
      run_capacity lg evs _ s (Nat.zero_le _) hrun
    rw [hc] at hchan
    refine ⟨hw, hbuf, hchan, by omega, ?_⟩
    intro hev
    obtain ⟨hinv, -, -⟩ := run_invariant lg evs _ s hev hrun rfl (Nat.zero_le _) rfl
    have hlen := congrArg List.length hinv
    simp only [List.length_append] at hlen
    omega
  · intro hzero
    subst hzero
    have hb0 : lg.batchSize = 0 := by simpa using hb
    have hc0 : lg.chanCap = 0 := by simpa using hc
    obtain ⟨h1, h2⟩ := processLogs_zero lg hb0 sels (State.init lg st now).worker rfl
    obtain ⟨h3, h4, h5⟩ := run_zero lg hb0 hc0 evs _ s hrun rfl rfl rfl
    refine ⟨h1, ?_, h3, h4, h5⟩
    rw [h2]
    simp [State.init, Worker.start]

/-- C11 on `demoLogger` (batch size 2) after the run `demoEvents`, and on
`zeroLogger` (batch size 0) after the run `zeroEvents`. -/
theorem C11_buffer_below_batch_size_witness :
    (2 < 2 ^ 63 ∧
      NewBatchLogger flakyClient 0 ((2 : Nat) : Int) 10 0
        = some (demoLogger, State.init demoLogger 0 0) ∧
      run demoLogger (State.init demoLogger 0 0) demoEvents = some demoFinal ∧
      1 ≤ 2 ∧ Event.done ∉ demoEvents ∧
      (processLogs demoLogger (State.init demoLogger 0 0).worker
          [Select.entry entryA, Select.tick 10, Select.entry entryB]).buffer.length ≤ 2 - 1 ∧
      demoFinal.worker.buffer.length ≤ 2 - 1 ∧
      demoFinal.logChan.length ≤ 2 * 2 ∧
      demoFinal.worker.buffer.length + demoFinal.logChan.length ≤ 3 * 2 - 1 ∧
      demoFinal.enqueued.length ≤ demoFinal.worker.sink.calls.length + (3 * 2 - 1)) ∧
    (0 < 2 ^ 63 ∧
      NewBatchLogger okClient () ((0 : Nat) : Int) 10 0
        = some (zeroLogger, State.init zeroLogger () 0) ∧
      run zeroLogger (State.init zeroLogger () 0) zeroEvents = some zeroFinal ∧
      (processLogs zeroLogger (State.init zeroLogger () 0).worker
          [Select.entry entryA, Select.tick 10, Select.entry entryB]).buffer = [] ∧
      (processLogs zeroLogger (State.init zeroLogger () 0).worker
          [Select.entry entryA, Select.tick 10, Select.entry entryB]).flushes
        = (received [Select.entry entryA, Select.tick 10, Select.entry entryB]).map
            (fun e => [e]) ∧
      zeroFinal.worker.buffer = [] ∧ zeroFinal.logChan = [] ∧
      zeroFinal.worker.flushes = zeroFinal.enqueued.map (fun e => [e])) := by
  have h2 := (C11_buffer_below_batch_size flakyClient 0 2 10 0 demoLogger
    (State.init demoLogger 0 0) demoFinal demoEvents
    [Select.entry entryA, Select.tick 10, Select.entry entryB] (by decide) rfl rfl).1
    (by decide)
  have h0 := (C11_buffer_below_batch_size okClient () 0 10 0 zeroLogger
    (State.init zeroLogger () 0) zeroFinal zeroEvents
    [Select.entry entryA, Select.tick 10, Select.entry entryB] (by decide) rfl rfl).2 rfl
  exact ⟨⟨by decide, rfl, rfl, by decide, by decide, h2.1, h2.2.1, h2.2.2.1, h2.2.2.2.1,
      h2.2.2.2.2 (by decide)⟩,
    ⟨by decide, rfl, rfl, h0⟩⟩

end aws
